import Mathlib

/-!
# Verification of the form-builder engine (`src/index.ts`, `src/types.ts`)

Shallow embedding of the Ramda-based form engine.  JavaScript records whose
attributes may be absent are modelled with `Option`-typed attributes; the
Ramda combinators used by the source (`R.find`, `R.findIndex`, `R.update`,
`R.append`, lens composition) are embedded by small Lean functions that
follow their library semantics:

* `R.update idx val arr` returns `arr` unchanged when `idx` is out of range
  (Ramda's `adjust` checks `idx >= arr.length` and returns the list as is);
* `R.append x xs` with `xs = undefined` treats `xs` as `[]`
  (Ramda's `_concat` defaults a nullish argument to the empty array);
* `R.prop k obj` on an absent object yields `undefined`;
* a lens write through `field(name)` therefore replaces the first field whose
  `name` matches, and leaves the list unchanged when no field matches — the
  freshly built `{attr: v}` focus object is discarded by the out-of-range
  `R.update`.
-/

namespace FormBuilder

/-- `FieldType` from `src/types.ts`: `"text" | "select" | "boolean"`. -/
inductive FieldType where
  | text
  | select
  | boolean
deriving DecidableEq, Repr

/-- A runtime field value: `string` for text/select fields, `boolean` for
boolean fields (`src/types.ts`). -/
inductive Value where
  | str (s : String)
  | bool (b : Bool)
deriving DecidableEq, Repr

/-- The aggregate value object built by `getValues`: a JavaScript object from
field names to values, modelled as an insertion-ordered association list.
An entry's value is `none` when the field had no `value` attribute
(JS stores `undefined` under the key). -/
abbrev ValuesMap := List (String × Option Value)

/-- `ValidationRule` (`src/types.ts`): `(value) => string | undefined`.
The argument is the field's `value` attribute, which may be absent. -/
abbrev ValidationRule := Option Value → Option String

/-- `ConditionalRule` (`src/types.ts`): `(values) => boolean`. -/
abbrev ConditionalRule := ValuesMap → Bool

/-- A form field.  `addField` creates only `{type, name}`; every other
attribute is absent (`none`) until some operation first writes it.  `errors`
and `visible` are the derived attributes written by `validate` and
`checkVisibility`. -/
structure Field where
  type : FieldType
  name : String
  value : Option Value := none
  options : Option (List String) := none
  defaultVisibility : Option Bool := none
  validationRules : Option (List ValidationRule) := none
  conditionalRules : Option (List ConditionalRule) := none
  errors : Option (List String) := none
  visible : Option Bool := none

instance : Inhabited Field := ⟨{ type := FieldType.text, name := "" }⟩

/-- `Form` (`src/types.ts`): `{ name: string, fields: Field[] }`. -/
structure Form where
  name : String
  fields : List Field

/-- `R.update idx val arr`: copy of `arr` with index `idx` replaced by `val`;
when `idx` is out of range Ramda's `adjust` returns the array unchanged. -/
def rUpdate (idx : Nat) (val : Field) (arr : List Field) : List Field :=
  if idx < arr.length then arr.set idx val else arr

/-- The getter of the `field(fieldName)` lens (`src/index.ts` line 11):
`R.find(R.propEq("name", fieldName))`. -/
def fieldGet (fieldName : String) (arr : List Field) : Option Field :=
  arr.find? (fun f => f.name = fieldName)

/-- A write through the composed lens
`R.compose(fieldsLens, field(fieldName), R.lensProp(attr))`
(`src/index.ts` lines 9–15): the focused field is the first whose `name`
equals `fieldName`; its transformed copy is written back with
`R.update(idx > -1 ? idx : R.length(arr), ...)`.  When no field matches,
`findIndex` yields `-1`, the write index equals `arr.length`, and `R.update`
at an out-of-range index returns the array unchanged, so the `{attr: v}`
object Ramda builds from the `undefined` focus is discarded. -/
def updateFieldAttr (fieldName : String) (tr : Field → Field)
    (arr : List Field) : List Field :=
  match arr.find? (fun f => f.name = fieldName),
        arr.findIdx? (fun f => f.name = fieldName) with
  | some f, some idx => rUpdate idx (tr f) arr
  | _, _ => arr

/-- `newForm` (`src/index.ts`). -/
def newForm : Form := { name := "", fields := [] }

/-- `setName` (`src/index.ts`): `R.set(formNameLens, name, form)`. -/
def setName (name : String) (form : Form) : Form :=
  { form with name := name }

/-- `addField` (`src/index.ts`):
`R.over(fieldsLens, R.append({ type, name }), form)`. -/
def addField (type : FieldType) (name : String) (form : Form) : Form :=
  { form with fields := form.fields ++ [{ type := type, name := name }] }

/-- `getValue` (`src/index.ts`): `R.view` through
`fieldsLens ∘ field(fieldName) ∘ lensProp("value")`; an absent field or an
absent `value` attribute both read as `undefined`. -/
def getValue (fieldName : String) (form : Form) : Option Value :=
  (fieldGet fieldName form.fields).bind (fun f => f.value)

/-- `setValue` (`src/index.ts`): `R.set` through
`fieldsLens ∘ field(fieldName) ∘ lensProp("value")`. -/
def setValue (fieldName : String) (value : Value) (form : Form) : Form :=
  { form with
    fields := updateFieldAttr fieldName
      (fun f => { f with value := some value }) form.fields }

/-- `setFieldOptions` (`src/index.ts`): `R.set` through
`fieldsLens ∘ field(fieldName) ∘ lensProp("options")`. -/
def setFieldOptions (fieldName : String) (options : List String)
    (form : Form) : Form :=
  { form with
    fields := updateFieldAttr fieldName
      (fun f => { f with options := some options }) form.fields }

/-- `setDefaultVisibility` (`src/index.ts`): `R.set` through
`fieldsLens ∘ field(fieldName) ∘ lensProp("defaultVisibility")`. -/
def setDefaultVisibility (fieldName : String) (visibility : Bool)
    (form : Form) : Form :=
  { form with
    fields := updateFieldAttr fieldName
      (fun f => { f with defaultVisibility := some visibility }) form.fields }

/-- `addValidationRule` (`src/index.ts`): `R.over(..., R.append(rule), form)`.
`R.append` over the absent attribute treats it as `[]` (Ramda `_concat`
defaults a nullish argument to the empty array). -/
def addValidationRule (fieldName : String) (rule : ValidationRule)
    (form : Form) : Form :=
  { form with
    fields := updateFieldAttr fieldName
      (fun f => { f with
        validationRules := some (f.validationRules.getD [] ++ [rule]) })
      form.fields }

/-- `addConditionalRule` (`src/index.ts`): `R.over(..., R.append(rule), form)`. -/
def addConditionalRule (fieldName : String) (rule : ConditionalRule)
    (form : Form) : Form :=
  { form with
    fields := updateFieldAttr fieldName
      (fun f => { f with
        conditionalRules := some (f.conditionalRules.getD [] ++ [rule]) })
      form.fields }

/-- JavaScript `.filter(Boolean)` on an array of `string | undefined`
results: keeps exactly the truthy entries, i.e. the non-absent, non-empty
strings (`undefined` and `""` are both falsy). -/
def jsFilterTruthy (results : List (Option String)) : List String :=
  results.filterMap (fun r =>
    match r with
    | some s => if s = "" then none else some s
    | none => none)

/-- `validate` (`src/index.ts` lines 71–85): for each field, run every rule
in `validationRules ?? []` on the field's `value` and keep the truthy
results as `errors`. -/
def validate (form : Form) : Form :=
  { form with
    fields := form.fields.map (fun field =>
      { field with
        errors := some (jsFilterTruthy
          ((field.validationRules.getD []).map (fun rule => rule field.value))) }) }

/-- The spread `{...prev, [k]: v}` on a JavaScript object: an existing key
keeps its position and gets the new value, a new key is appended. -/
def objInsert (k : String) (v : Option Value) (m : ValuesMap) : ValuesMap :=
  if m.any (fun p => p.1 = k) then
    m.map (fun p => if p.1 = k then (k, v) else p)
  else
    m ++ [(k, v)]

/-- Key lookup in a `ValuesMap` (the JavaScript property read). -/
def objLookup (k : String) (m : ValuesMap) : Option (Option Value) :=
  (m.find? (fun p => p.1 = k)).map (fun p => p.2)

/-- `getValues` (`src/index.ts` lines 98–105):
`form.fields.reduce((prev, cur) => ({...prev, [cur.name]: cur.value}), {})`. -/
def getValues (form : Form) : ValuesMap :=
  form.fields.foldl (fun prev cur => objInsert cur.name cur.value prev) []

/-- `checkVisibility` (`src/index.ts` lines 107–124): compute `getValues`
once, then for each field set
`visible = field.conditionalRules ? field.conditionalRules.some(rule => rule(values)) : true`.
An absent `conditionalRules` attribute (JS `undefined`, falsy) yields `true`;
a present array — even an empty one, since `[]` is truthy in JavaScript —
yields the `some`-fold over its rules. -/
def checkVisibility (form : Form) : Form :=
  let values := getValues form
  { form with
    fields := form.fields.map (fun field =>
      { field with
        visible := some (match field.conditionalRules with
          | some rules => rules.any (fun rule => rule values)
          | none => true) }) }

/-- Character class `[A-Za-z0-9._%+-]` of `EMAIL_REGEX` (local part;
the `/i` flag makes the letter range case-insensitive). -/
def localChar (c : Char) : Bool :=
  c.isAlpha || c.isDigit || c = '.' || c = '_' || c = '%' || c = '+' || c = '-'

/-- Character class `[A-Za-z0-9.-]` of `EMAIL_REGEX` (domain part). -/
def domainChar (c : Char) : Bool :=
  c.isAlpha || c.isDigit || c = '.' || c = '-'

/-- Splits a character list at the first character satisfying `p`:
`break1 p cs = some (pre, post)` when `cs = pre ++ [c] ++ post`, no
character of `pre` satisfies `p`, and `p c` holds. -/
def break1 (p : Char → Bool) : List Char → Option (List Char × List Char)
  | [] => none
  | c :: cs =>
    if p c then some ([], cs)
    else (break1 p cs).map (fun pr => (c :: pr.1, pr.2))

/-- Executable matcher for
`EMAIL_REGEX = /^[A-Z0-9._%+-]+@[A-Z0-9.-]+\.[A-Z]{2,}$/i`
(`src/index.ts` line 51).  The local part is everything before the first
`@` (the local character class excludes `@`); the final `\.[A-Z]{2,}$`
anchors the top-level-domain part after the last dot (the TLD class
excludes `.`), so the matcher splits the remainder at its last dot. -/
def emailMatch (cs : List Char) : Bool :=
  match break1 (fun c => c = '@') cs with
  | none => false
  | some (l, rest) =>
    match break1 (fun c => c = '.') rest.reverse with
    | none => false
    | some (trev, drev) =>
      let t := trev.reverse
      let d := drev.reverse
      decide (l ≠ []) && l.all localChar &&
      decide (d ≠ []) && d.all domainChar &&
      decide (2 ≤ t.length) && t.all Char.isAlpha

/-- `isEmail` (`src/index.ts` lines 53–54):
`EMAIL_REGEX.test(value) ? undefined : "Not a valid email"`. -/
def isEmail (value : String) : Option String :=
  if emailMatch value.data then none else some "Not a valid email"

/-- Declarative reading of the pattern
`^[A-Za-z0-9._%+-]+@[A-Za-z0-9.-]+\.[A-Za-z]{2,}$` (case-insensitive):
some decomposition `local ++ "@" ++ domain ++ "." ++ tld` with a nonempty
local part over `[A-Za-z0-9._%+-]`, a nonempty domain part over
`[A-Za-z0-9.-]`, and a top-level domain of at least two letters. -/
def emailSpec (cs : List Char) : Prop :=
  ∃ l d t : List Char,
    cs = l ++ '@' :: (d ++ '.' :: t) ∧
    1 ≤ l.length ∧ l.all localChar ∧
    1 ≤ d.length ∧ d.all domainChar ∧
    2 ≤ t.length ∧ t.all Char.isAlpha

/-- Spec reading of the validation pass for one field: the sequence of all
non-absent results (a present, nonempty message — the spec's §3 counts
`undefined` and `""` both as "the rule passed") of applying every rule in
`validationRules`, in attachment order, to the field's current `value`;
zero or absent rules give `[]`. -/
def specErrors (f : Field) : List String :=
  ((f.validationRules.getD []).map (fun rule => rule f.value)).filterMap
    (fun r => r.filter (fun s => !(s == "")))

/-- Spec reading (amended) of the visibility of one field given the shared
aggregate value map: `true` when the `conditionalRules` attribute is absent,
otherwise the logical OR of the rules applied to the shared map (so a
present-but-empty rule sequence yields `false`). -/
def specVisible (values : ValuesMap) (f : Field) : Bool :=
  match f.conditionalRules with
  | some rules => rules.any (fun rule => rule values)
  | none => true

/-- Equality of every field attribute except `errors`. -/
def eqExceptErrors (a b : Field) : Prop :=
  a.type = b.type ∧ a.name = b.name ∧ a.value = b.value ∧
  a.options = b.options ∧ a.defaultVisibility = b.defaultVisibility ∧
  a.validationRules = b.validationRules ∧
  a.conditionalRules = b.conditionalRules ∧ a.visible = b.visible

/-- Equality of every field attribute except `visible`. -/
def eqExceptVisible (a b : Field) : Prop :=
  a.type = b.type ∧ a.name = b.name ∧ a.value = b.value ∧
  a.options = b.options ∧ a.defaultVisibility = b.defaultVisibility ∧
  a.validationRules = b.validationRules ∧
  a.conditionalRules = b.conditionalRules ∧ a.errors = b.errors

/-- Equality of every field attribute except `defaultVisibility`. -/
def eqExceptDV (a b : Field) : Prop :=
  a.type = b.type ∧ a.name = b.name ∧ a.value = b.value ∧
  a.options = b.options ∧ a.validationRules = b.validationRules ∧
  a.conditionalRules = b.conditionalRules ∧ a.errors = b.errors ∧
  a.visible = b.visible

/-- A sample stored validation rule (a concrete closure, used as a test
input): accepts every value. -/
def sampleRule : ValidationRule := fun _ => none

/-- A sample stored conditional rule (a concrete closure, used as a test
input): always hides the field. -/
def sampleCond : ConditionalRule := fun _ => false

/-- A freshly added field, as `addField "text" "a"` builds it. -/
def plainField : Field := { type := FieldType.text, name := "a" }

/-- A filled text field named `"a"` (test input). -/
def fieldA : Field :=
  { type := FieldType.text, name := "a", value := some (Value.str "1") }

/-- A second filled text field with the same name `"a"` (test input for the
duplicate-name behavior). -/
def fieldA2 : Field :=
  { type := FieldType.text, name := "a", value := some (Value.str "2") }

/-- A form with two fields sharing the name `"a"` (test input). -/
def dupForm : Form := { name := "", fields := [fieldA, fieldA2] }

/-- A field carrying one validation rule (test input). -/
def ruleField : Field :=
  { type := FieldType.text
    name := "email"
    value := some (Value.str "x")
    validationRules := some [sampleRule] }

/-- A form with one field carrying one validation rule (test input). -/
def ruleForm : Form := { name := "", fields := [ruleField] }

/-- A field setting `defaultVisibility := false` (test input). -/
def dvField : Field :=
  { type := FieldType.text
    name := "a"
    defaultVisibility := some false }

/-- A field whose `conditionalRules` attribute is a present but empty
array (test input). -/
def emptyRulesField : Field :=
  { type := FieldType.text
    name := "a"
    conditionalRules := some [] }

/-- A one-field form whose field sets `defaultVisibility := false`
(test input). -/
def dvForm1 : Form := { name := "", fields := [dvField] }

/-- The same one-field form with the `defaultVisibility` attribute absent
(test input). -/
def dvForm2 : Form :=
  { name := "", fields := [{ type := FieldType.text, name := "a" }] }

/-! ## Helper lemmas about the addressing layer -/

theorem updateFieldAttr_cons (n : String) (tr : Field → Field) (f : Field)
    (fs : List Field) :
    updateFieldAttr n tr (f :: fs) =
      if f.name = n then tr f :: fs
      else f :: updateFieldAttr n tr fs := by
  by_cases h : f.name = n
  · simp [updateFieldAttr, List.find?_cons_of_pos, List.findIdx?_cons, h,
      rUpdate]
  · rw [if_neg h]
    have hfind : List.find? (fun f => f.name = n) (f :: fs) =
        List.find? (fun f => f.name = n) fs :=
      List.find?_cons_of_neg _ (by simpa using h)
    have hidx : List.findIdx? (fun f => f.name = n) (f :: fs) =
        (List.findIdx? (fun f => f.name = n) fs).map (· + 1) := by
      rw [List.findIdx?_cons, if_neg (by simpa using h), List.findIdx?_succ]
    rw [updateFieldAttr, hfind, hidx, updateFieldAttr]
    rcases hg : List.find? (fun f => f.name = n) fs with _ | g <;>
      rcases hi : List.findIdx? (fun f => f.name = n) fs with _ | i <;>
        simp [hg, hi]
    rcases Nat.lt_or_ge i fs.length with hlt | hge
    · simp [rUpdate, hlt, Nat.succ_lt_succ hlt]
    · simp [rUpdate, Nat.not_lt.mpr hge, Nat.not_lt.mpr (Nat.succ_le_succ hge)]

theorem updateFieldAttr_not_found (n : String) (tr : Field → Field)
    (fs : List Field) (h : ∀ f ∈ fs, ¬ f.name = n) :
    updateFieldAttr n tr fs = fs := by
  induction fs with
  | nil => rfl
  | cons f fs ih =>
    rw [updateFieldAttr_cons, if_neg (h f (List.mem_cons_self f fs)),
      ih (fun g hg => h g (List.mem_cons_of_mem f hg))]

theorem updateFieldAttr_decomp (n : String) (tr : Field → Field)
    (pre : List Field) (fld : Field) (post : List Field)
    (hpre : ∀ f ∈ pre, ¬ f.name = n) (hfld : fld.name = n) :
    updateFieldAttr n tr (pre ++ fld :: post) = pre ++ tr fld :: post := by
  induction pre with
  | nil => simp [updateFieldAttr_cons, hfld]
  | cons g pre ih =>
    rw [List.cons_append, updateFieldAttr_cons,
      if_neg (hpre g (List.mem_cons_self g pre)),
      ih (fun f hf => hpre f (List.mem_cons_of_mem g hf)), List.cons_append]

theorem fieldGet_decomp (n : String) (pre : List Field) (fld : Field)
    (post : List Field) (hpre : ∀ f ∈ pre, ¬ f.name = n)
    (hfld : fld.name = n) :
    fieldGet n (pre ++ fld :: post) = some fld := by
  rw [fieldGet, List.find?_append]
  have h1 : List.find? (fun f => f.name = n) pre = none :=
    List.find?_eq_none.mpr (by simpa using hpre)
  rw [h1, List.find?_cons_of_pos _ (by simpa using hfld)]
  rfl

/-! ## C1 -/

/-- C1, counterexample.  The claim says a name-addressed write on a form
with no field of the given name appends the newly constructed field value
at the end of `fields` (so on the empty form each write should leave one
field).  In the code, the `field(fieldName)` lens setter computes the write
index `findIndex(...) > -1 ? idx : length(arr)` and calls `R.update`, and
Ramda's `update` returns the array unchanged for an out-of-range index —
`arr.length` is out of range — so every such write leaves `fields` empty:
the update is silently dropped, nothing is appended. -/
theorem c1_counterexample :
    (setValue "x" (Value.str "v") newForm).fields = [] ∧
    (setFieldOptions "x" ["red"] newForm).fields = [] ∧
    (setDefaultVisibility "x" true newForm).fields = [] ∧
    (addValidationRule "x" sampleRule newForm).fields = [] ∧
    (addConditionalRule "x" sampleCond newForm).fields = [] :=
  ⟨rfl, rfl, rfl, rfl, rfl⟩

/-- C1, amended: when no field in the form has the given `fieldName`, every
name-addressed write operation (`setValue`, `setFieldOptions`,
`setDefaultVisibility`, `addValidationRule`, `addConditionalRule`) returns
the form unchanged — the write never throws, but the update is silently
dropped rather than appended (`R.update` at the out-of-range index
`arr.length` returns the array as is). -/
theorem c1_theorem (n : String) (v : Value) (opts : List String) (b : Bool)
    (vr : ValidationRule) (cr : ConditionalRule) (form : Form)
    (h : ∀ f ∈ form.fields, ¬ f.name = n) :
    setValue n v form = form ∧
    setFieldOptions n opts form = form ∧
    setDefaultVisibility n b form = form ∧
    addValidationRule n vr form = form ∧
    addConditionalRule n cr form = form := by
  refine ⟨?_, ?_, ?_, ?_, ?_⟩ <;>
    simp [setValue, setFieldOptions, setDefaultVisibility, addValidationRule,
      addConditionalRule, updateFieldAttr_not_found _ _ _ h]

/-- C1, witness: the amended theorem applied to the empty form. -/
theorem c1_witness :
    (∀ f ∈ newForm.fields, ¬ f.name = "x") ∧
    (setValue "x" (Value.str "v") newForm = newForm ∧
     setFieldOptions "x" ["red"] newForm = newForm ∧
     setDefaultVisibility "x" true newForm = newForm ∧
     addValidationRule "x" sampleRule newForm = newForm ∧
     addConditionalRule "x" sampleCond newForm = newForm) :=
  ⟨by simp [newForm],
   c1_theorem "x" (Value.str "v") ["red"] true sampleRule sampleCond newForm
     (by simp [newForm])⟩

/-! ## C2 -/

theorem jsFilterTruthy_eq_filterMap (l : List (Option String)) :
    jsFilterTruthy l = l.filterMap (fun r => r.filter (fun s => !(s == ""))) := by
  unfold jsFilterTruthy
  congr 1
  funext r
  cases r with
  | none => rfl
  | some s =>
    by_cases h : s = "" <;> simp [Option.filter, h]

/-- C2: `validate` gives every field `errors` equal to exactly the sequence
of non-absent results (a present, nonempty message) of applying every rule
in its `validationRules`, in attachment order, to the field's current
`value`; all rules contribute (no short-circuit), and a field with zero
rules — including an absent `validationRules` attribute — gets `errors = []`.
The `List.Forall₂` relates input and output fields pointwise, so it also
pins the field count. -/
theorem c2_theorem (form : Form) :
    List.Forall₂ (fun a b => b.errors = some (specErrors a))
      form.fields (validate form).fields ∧
    ∀ f : Field, f.validationRules.getD [] = [] → specErrors f = [] := by
  constructor
  · rw [validate]
    simp only [List.forall₂_map_right_iff]
    rw [List.forall₂_same]
    intro f _
    simp [specErrors, jsFilterTruthy_eq_filterMap]
  · intro f h
    simp [specErrors, h]

/-- C2, witness: the theorem applied to a one-field, one-rule form and to a
field with no `validationRules` attribute. -/
theorem c2_witness :
    (List.Forall₂ (fun a b => b.errors = some (specErrors a))
      ruleForm.fields (validate ruleForm).fields ∧
     plainField.validationRules.getD [] = [] ∧ specErrors plainField = []) :=
  ⟨(c2_theorem ruleForm).1, rfl, (c2_theorem ruleForm).2 plainField rfl⟩

/-! ## C3 -/

/-- C3, counterexample.  The claim says a field with no conditional rules
gets `visible = true`.  A field whose `conditionalRules` attribute is a
present but empty array has no conditional rules, yet `checkVisibility`
marks it `visible = false`: the JavaScript condition
`field.conditionalRules ? field.conditionalRules.some(...) : true` takes
the truthy branch (`[]` is truthy) and `[].some(...)` is `false`. -/
theorem c3_counterexample :
    (checkVisibility { name := "", fields := [emptyRulesField] }).fields.map
      (fun f => f.visible) = [some false] := rfl

/-- C3 (amended): `checkVisibility` computes the aggregate value map once
via `getValues` and sets, for each field, `visible = true` if the field's
`conditionalRules` attribute is absent, and otherwise
`visible = true` iff at least one rule returns `true` on that shared map
(logical OR) — so a present-but-empty rule sequence yields
`visible = false`. -/
theorem c3_theorem (form : Form) :
    List.Forall₂
      (fun a b => b.visible = some (specVisible (getValues form) a))
      form.fields (checkVisibility form).fields := by
  rw [checkVisibility]
  simp only [List.forall₂_map_right_iff]
  rw [List.forall₂_same]
  intro f _
  cases h : f.conditionalRules <;> simp [specVisible, h]

/-! ## C4 -/

theorem validate_validate (form : Form) :
    validate (validate form) = validate form := by
  simp only [validate, List.map_map]
  congr 1

theorem getValues_checkVisibility (form : Form) :
    getValues (checkVisibility form) = getValues form := by
  simp only [checkVisibility, getValues, List.foldl_map]

theorem checkVisibility_checkVisibility (form : Form) :
    checkVisibility (checkVisibility form) = checkVisibility form := by
  conv_lhs => rw [checkVisibility, getValues_checkVisibility]
  conv_lhs => rw [checkVisibility]
  conv_rhs => rw [checkVisibility]
  simp only [List.map_map]
  congr 1

/-- C4: `validate` and `checkVisibility` are idempotent — a second
application yields the same `errors`, resp. the same `visible`, on every
field as a single application (the passes are pure functions of the
snapshot). -/
theorem c4_theorem (form : Form) :
    (validate (validate form)).fields.map (fun f => f.errors) =
      (validate form).fields.map (fun f => f.errors) ∧
    (checkVisibility (checkVisibility form)).fields.map (fun f => f.visible) =
      (checkVisibility form).fields.map (fun f => f.visible) := by
  rw [validate_validate, checkVisibility_checkVisibility]
  exact ⟨rfl, rfl⟩

/-! ## C5 -/

/-- C5: `validate` and `checkVisibility` only annotate — the returned form
keeps the same `name`, the same number and order of fields (the `Forall₂`
relates input and output fields pointwise), and every field attribute other
than `errors` (for `validate`), resp. other than `visible`
(for `checkVisibility`), is unchanged. -/
theorem c5_theorem (form : Form) :
    (validate form).name = form.name ∧
    (checkVisibility form).name = form.name ∧
    List.Forall₂ eqExceptErrors form.fields (validate form).fields ∧
    List.Forall₂ eqExceptVisible form.fields (checkVisibility form).fields := by
  refine ⟨rfl, rfl, ?_, ?_⟩
  · rw [validate]
    simp only [List.forall₂_map_right_iff]
    rw [List.forall₂_same]
    intro f _
    exact ⟨rfl, rfl, rfl, rfl, rfl, rfl, rfl, rfl⟩
  · rw [checkVisibility]
    simp only [List.forall₂_map_right_iff]
    rw [List.forall₂_same]
    intro f _
    exact ⟨rfl, rfl, rfl, rfl, rfl, rfl, rfl, rfl⟩

/-! ## C6 -/

theorem updateFieldAttr_map_name (n : String) (tr : Field → Field)
    (htr : ∀ f, (tr f).name = f.name) (fs : List Field) :
    (updateFieldAttr n tr fs).map Field.name = fs.map Field.name := by
  induction fs with
  | nil => rfl
  | cons f fs ih =>
    rw [updateFieldAttr_cons]
    by_cases h : f.name = n
    · simp [h, htr]
    · simp [h, ih]

/-- C6: `addField` appends its new `{type, name}` record at the tail of the
fields sequence (all prior field names keep their positions and order), and
every name-addressed setter applied to a form containing the named field
replaces the first matched field in place: the fields sequence of the
result is the same, with only that position holding the transformed copy,
and the sequence of field names is untouched. -/
theorem c6_theorem (t : FieldType) (nm n : String) (v : Value)
    (opts : List String) (b : Bool) (vr : ValidationRule)
    (cr : ConditionalRule) (form : Form)
    (pre : List Field) (fld : Field) (post : List Field) :
    ((addField t nm form).fields =
        form.fields ++ [{ type := t, name := nm }] ∧
      (addField t nm form).fields.map Field.name =
        form.fields.map Field.name ++ [nm]) ∧
    (form.fields = pre ++ fld :: post →
     (∀ f ∈ pre, ¬ f.name = n) → fld.name = n →
      ((setValue n v form).fields =
          pre ++ { fld with value := some v } :: post ∧
        (setValue n v form).fields.map Field.name =
          form.fields.map Field.name) ∧
      ((setFieldOptions n opts form).fields =
          pre ++ { fld with options := some opts } :: post ∧
        (setFieldOptions n opts form).fields.map Field.name =
          form.fields.map Field.name) ∧
      ((setDefaultVisibility n b form).fields =
          pre ++ { fld with defaultVisibility := some b } :: post ∧
        (setDefaultVisibility n b form).fields.map Field.name =
          form.fields.map Field.name) ∧
      ((addValidationRule n vr form).fields =
          pre ++ { fld with validationRules := some (fld.validationRules.getD [] ++ [vr]) } :: post ∧
        (addValidationRule n vr form).fields.map Field.name =
          form.fields.map Field.name) ∧
      ((addConditionalRule n cr form).fields =
          pre ++ { fld with conditionalRules := some (fld.conditionalRules.getD [] ++ [cr]) } :: post ∧
        (addConditionalRule n cr form).fields.map Field.name =
          form.fields.map Field.name)) := by
  constructor
  · exact ⟨rfl, by simp [addField]⟩
  · intro hform hpre hfld
    have hdec : ∀ tr : Field → Field,
        updateFieldAttr n tr form.fields = pre ++ tr fld :: post := by
      intro tr
      rw [hform]
      exact updateFieldAttr_decomp n tr pre fld post hpre hfld
    have hnm : ∀ tr : Field → Field, (∀ f, (tr f).name = f.name) →
        (updateFieldAttr n tr form.fields).map Field.name =
          form.fields.map Field.name :=
      fun tr htr => updateFieldAttr_map_name n tr htr form.fields
    exact ⟨⟨hdec _, hnm _ (fun f => rfl)⟩, ⟨hdec _, hnm _ (fun f => rfl)⟩,
      ⟨hdec _, hnm _ (fun f => rfl)⟩, ⟨hdec _, hnm _ (fun f => rfl)⟩,
      ⟨hdec _, hnm _ (fun f => rfl)⟩⟩

/-- C6, witness: the theorem applied to the two-field form `dupForm`, whose
first field is matched at position 0. -/
theorem c6_witness :
    dupForm.fields = [] ++ fieldA :: [fieldA2] ∧
    fieldA.name = "a" ∧
    (setValue "a" (Value.str "9") dupForm).fields =
      [] ++ { fieldA with value := some (Value.str "9") } :: [fieldA2] :=
  ⟨rfl, rfl,
    ((c6_theorem FieldType.select "s" "a" (Value.str "9") ["red"] true
      sampleRule sampleCond dupForm [] fieldA [fieldA2]).2 rfl
      (by simp) rfl).1.1⟩

/-! ## C10 -/

/-- C10: with duplicate field names, the addressing layer is first-match:
`getValue` reads the `value` of the first field in the sequence bearing the
name, and every name-addressed write replaces only that first field,
leaving every later same-named field (any field of `post`) unchanged at
its position. -/
theorem c10_theorem (n : String) (v : Value) (opts : List String) (b : Bool)
    (vr : ValidationRule) (cr : ConditionalRule) (form : Form)
    (pre : List Field) (fld : Field) (post : List Field)
    (hform : form.fields = pre ++ fld :: post)
    (hpre : ∀ f ∈ pre, ¬ f.name = n) (hfld : fld.name = n) :
    getValue n form = fld.value ∧
    (setValue n v form).fields = pre ++ { fld with value := some v } :: post ∧
    (setFieldOptions n opts form).fields =
      pre ++ { fld with options := some opts } :: post ∧
    (setDefaultVisibility n b form).fields =
      pre ++ { fld with defaultVisibility := some b } :: post ∧
    (addValidationRule n vr form).fields =
      pre ++ { fld with validationRules := some (fld.validationRules.getD [] ++ [vr]) } :: post ∧
    (addConditionalRule n cr form).fields =
      pre ++ { fld with conditionalRules := some (fld.conditionalRules.getD [] ++ [cr]) } :: post := by
  have hdec : ∀ tr : Field → Field,
      updateFieldAttr n tr form.fields = pre ++ tr fld :: post := by
    intro tr
    rw [hform]
    exact updateFieldAttr_decomp n tr pre fld post hpre hfld
  have hget : fieldGet n form.fields = some fld := by
    rw [hform]
    exact fieldGet_decomp n pre fld post hpre hfld
  exact ⟨by rw [getValue, hget]; rfl, hdec _, hdec _, hdec _, hdec _, hdec _⟩

/-- C10, witness: the theorem applied to `dupForm`, a form with two fields
both named `"a"`; the read and the write hit the first one. -/
theorem c10_witness :
    dupForm.fields = [] ++ fieldA :: [fieldA2] ∧
    fieldA.name = "a" ∧
    getValue "a" dupForm = fieldA.value ∧
    (setDefaultVisibility "a" false dupForm).fields =
      [] ++ { fieldA with defaultVisibility := some false } :: [fieldA2] := by
  have h := c10_theorem "a" (Value.str "9") ["red"] false sampleRule
    sampleCond dupForm [] fieldA [fieldA2] rfl (by simp) rfl
  exact ⟨rfl, rfl, h.1, h.2.2.2.1⟩

/-! ## C7 -/

theorem objLookup_map (k k' : String) (v : Option Value) (m : ValuesMap) :
    objLookup k (m.map (fun p => if p.1 = k' then (k', v) else p)) =
      (m.find? (fun p => p.1 = k)).map
        (fun e => (if e.1 = k' then (k', v) else e).2) := by
  have hp : ((fun p : String × Option Value => decide (p.1 = k)) ∘
      (fun p : String × Option Value => if p.1 = k' then (k', v) else p)) =
      fun p : String × Option Value => decide (p.1 = k) := by
    funext p
    by_cases h : p.1 = k' <;> simp [h]
  rw [objLookup, List.find?_map, hp, Option.map_map]
  rfl

theorem objLookup_objInsert (k k' : String) (v : Option Value)
    (m : ValuesMap) :
    objLookup k (objInsert k' v m) =
      if k' = k then some v else objLookup k m := by
  rw [objInsert]
  by_cases hany : m.any (fun p => p.1 = k')
  · rw [if_pos hany, objLookup_map]
    by_cases hkk : k' = k
    · subst hkk
      obtain ⟨e, hem, he⟩ := List.any_eq_true.mp hany
      cases hfind : m.find? (fun p => p.1 = k') with
      | none => exact absurd he (List.find?_eq_none.mp hfind e hem)
      | some e' =>
        have he' : e'.1 = k' := by simpa using List.find?_some hfind
        simp [hfind, he']
    · rw [if_neg hkk]
      cases hfind : m.find? (fun p => p.1 = k) with
      | none => simp [objLookup, hfind]
      | some e =>
        have he : e.1 = k := by simpa using List.find?_some hfind
        have hne : ¬ e.1 = k' := by
          rw [he]
          exact fun hh => hkk hh.symm
        simp [objLookup, hfind, hne]
  · rw [if_neg hany, objLookup, List.find?_append]
    have hnok' : ∀ x ∈ m, ¬ x.1 = k' := by
      intro x hx hxk
      exact hany (List.any_eq_true.mpr ⟨x, hx, by simpa using hxk⟩)
    by_cases hkk : k' = k
    · subst hkk
      have hnone : m.find? (fun p => p.1 = k') = none := by
        rw [List.find?_eq_none]
        intro x hx
        simpa using hnok' x hx
      simp [hnone, List.find?_cons]
    · cases hfind : m.find? (fun p => p.1 = k) with
      | none => simp [objLookup, hfind, List.find?_cons, hkk]
      | some e => simp [objLookup, hfind, hkk]

theorem objLookup_getValues_aux (fs : List Field) :
    ∀ (acc : ValuesMap) (k : String),
      objLookup k
        (fs.foldl (fun prev cur => objInsert cur.name cur.value prev) acc) =
      match fs.reverse.find? (fun f => f.name = k) with
      | some f => some f.value
      | none => objLookup k acc := by
  induction fs with
  | nil => intro acc k; rfl
  | cons f fs ih =>
    intro acc k
    rw [List.foldl_cons, ih, List.reverse_cons, List.find?_append]
    cases hfind : fs.reverse.find? (fun g => g.name = k) with
    | some g => simp [Option.or]
    | none =>
      by_cases hf : f.name = k
      · simp [List.find?_cons, hf, objLookup_objInsert]
      · simp [List.find?_cons, hf, objLookup_objInsert]

/-- C7: `getValues` produces a mapping whose keys are exactly the names of
the form's fields, and which maps each name to the `value` of the last
field in the sequence bearing that name — with duplicate names, the later
field overwrites the earlier one (the `reduce` runs front to back and the
spread overwrites the key). -/
theorem c7_theorem (form : Form) (k : String) :
    objLookup k (getValues form) =
      (form.fields.reverse.find? (fun f => f.name = k)).map
        (fun f => f.value) ∧
    ((objLookup k (getValues form)).isSome = true ↔
      k ∈ form.fields.map Field.name) := by
  have h1 : objLookup k (getValues form) =
      (form.fields.reverse.find? (fun f => f.name = k)).map
        (fun f => f.value) := by
    rw [getValues, objLookup_getValues_aux]
    cases hfind : form.fields.reverse.find? (fun f => f.name = k) <;>
      simp [objLookup]
  refine ⟨h1, ?_⟩
  rw [h1]
  cases hfind : form.fields.reverse.find? (fun f => f.name = k) with
  | none =>
    constructor
    · intro h
      simp at h
    · intro hk
      obtain ⟨f, hf, hfk⟩ := List.mem_map.mp hk
      exact absurd (by simpa using hfk)
        (List.find?_eq_none.mp hfind f (List.mem_reverse.mpr hf))
  | some f =>
    constructor
    · intro _
      have hf : f ∈ form.fields.reverse := List.mem_of_find?_eq_some hfind
      have hfk : f.name = k := by simpa using List.find?_some hfind
      exact List.mem_map.mpr ⟨f, List.mem_reverse.mp hf, hfk⟩
    · intro _
      rfl

/-! ## C8 -/

theorem break1_eq_some (p : Char → Bool) :
    ∀ (cs a b : List Char), break1 p cs = some (a, b) →
      ∃ c, p c = true ∧ cs = a ++ c :: b ∧ ∀ x ∈ a, p x = false := by
  intro cs
  induction cs with
  | nil =>
    intro a b h
    exact absurd h (by simp [break1])
  | cons c cs ih =>
    intro a b h
    by_cases hc : p c = true
    · rw [break1, if_pos hc] at h
      injection h with h2
      rw [Prod.mk.injEq] at h2
      obtain ⟨rfl, rfl⟩ := h2
      exact ⟨c, hc, rfl, by simp⟩
    · rw [break1, if_neg hc] at h
      cases hbr : break1 p cs with
      | none =>
        rw [hbr] at h
        exact absurd h (by simp)
      | some pr =>
        rw [hbr] at h
        injection h with h2
        rw [Prod.mk.injEq] at h2
        obtain ⟨h3, rfl⟩ := h2
        obtain ⟨c', hc', hcs', hall⟩ := ih pr.1 pr.2 (by rw [hbr])
        refine ⟨c', hc', ?_, ?_⟩
        · rw [← h3, hcs']
          simp
        · intro x hx
          rw [← h3] at hx
          rcases List.mem_cons.mp hx with rfl | hx'
          · simpa using hc
          · exact hall x hx'

theorem break1_append (p : Char → Bool) (a : List Char) (c : Char)
    (b : List Char) (ha : ∀ x ∈ a, p x = false) (hc : p c = true) :
    break1 p (a ++ c :: b) = some (a, b) := by
  induction a with
  | nil => simp [break1, hc]
  | cons x a ih =>
    have hx : p x = false := ha x (List.mem_cons_self x a)
    simp [break1, hx, ih (fun y hy => ha y (List.mem_cons_of_mem x hy))]

theorem localChar_ne_at (c : Char) (h : localChar c = true) :
    decide (c = '@') = false := by
  by_cases hc : c = '@'
  · subst hc
    exact absurd h (by decide)
  · simp [hc]

theorem isAlpha_ne_dot (c : Char) (h : c.isAlpha = true) :
    decide (c = '.') = false := by
  by_cases hc : c = '.'
  · subst hc
    exact absurd h (by decide)
  · simp [hc]

/-- The executable matcher embedding `EMAIL_REGEX.test` agrees with the
declarative reading of the pattern. -/
theorem emailMatch_iff (cs : List Char) :
    emailMatch cs = true ↔ emailSpec cs := by
  constructor
  · intro h
    unfold emailMatch at h
    split at h
    · exact Bool.noConfusion h
    · rename_i l rest hb1
      split at h
      · exact Bool.noConfusion h
      · rename_i trev drev hb2
        simp only [Bool.and_eq_true, decide_eq_true_eq] at h
        obtain ⟨⟨⟨⟨⟨hl, hlall⟩, hd⟩, hdall⟩, ht2⟩, htall⟩ := h
        obtain ⟨c1, hc1, hcs, _⟩ := break1_eq_some _ cs l rest hb1
        have hc1' : c1 = '@' := by simpa using hc1
        obtain ⟨c2, hc2, hrest, _⟩ :=
          break1_eq_some _ rest.reverse trev drev hb2
        have hc2' : c2 = '.' := by simpa using hc2
        have hrest' : rest = drev.reverse ++ '.' :: trev.reverse := by
          have h' := congrArg List.reverse hrest
          rw [List.reverse_reverse] at h'
          rw [h', hc2']
          simp [List.reverse_append]
        refine ⟨l, drev.reverse, trev.reverse, ?_, ?_, hlall, ?_, hdall,
          ht2, htall⟩
        · rw [hcs, hc1', hrest']
        · exact List.length_pos.mpr hl
        · exact List.length_pos.mpr hd
  · rintro ⟨l, d, t, hcs, hl, hlall, hd, hdall, ht2, htall⟩
    subst hcs
    have hlne : ∀ x ∈ l, decide (x = '@') = false := fun x hx =>
      localChar_ne_at x (List.all_eq_true.mp hlall x hx)
    have hb1 : break1 (fun c => c = '@') (l ++ '@' :: (d ++ '.' :: t)) =
        some (l, d ++ '.' :: t) :=
      break1_append _ l '@' _ hlne (by simp)
    have hrev : (d ++ '.' :: t).reverse = t.reverse ++ '.' :: d.reverse := by
      simp [List.reverse_append]
    have htne : ∀ x ∈ t.reverse, decide (x = '.') = false := fun x hx =>
      isAlpha_ne_dot x
        (List.all_eq_true.mp htall x (List.mem_reverse.mp hx))
    have hb2 : break1 (fun c => c = '.') (t.reverse ++ '.' :: d.reverse) =
        some (t.reverse, d.reverse) :=
      break1_append _ _ '.' _ htne (by simp)
    unfold emailMatch
    simp only [hb1, hrev, hb2]
    simp only [List.reverse_reverse, Bool.and_eq_true, decide_eq_true_eq]
    refine ⟨⟨⟨⟨⟨?_, hlall⟩, ?_⟩, hdall⟩, ht2⟩, htall⟩
    · exact List.ne_nil_of_length_pos hl
    · exact List.ne_nil_of_length_pos hd

/-- C8: `isEmail` returns absence exactly on the strings matching the
pattern `^[A-Za-z0-9._%+-]+@[A-Za-z0-9.-]+\.[A-Za-z]{2,}$`
(case-insensitively, captured by `emailSpec`), and on every other string it
returns exactly `"Not a valid email"`; in particular `"not_an_email"`
yields the error and `"ben@example.com"` yields absence. -/
theorem c8_theorem :
    (∀ s : String,
      (isEmail s = none ↔ emailSpec s.data) ∧
      (emailSpec s.data ∨ isEmail s = some "Not a valid email")) ∧
    isEmail "not_an_email" = some "Not a valid email" ∧
    isEmail "ben@example.com" = none := by
  refine ⟨fun s => ⟨?_, ?_⟩, by rfl, by rfl⟩
  · rw [isEmail, ← emailMatch_iff]
    by_cases h : emailMatch s.data = true <;> simp [h]
  · rw [isEmail, ← emailMatch_iff]
    by_cases h : emailMatch s.data = true <;> simp [h]

/-! ## C9 -/

theorem forall₂_eqExceptDV_self (fs : List Field) :
    List.Forall₂ eqExceptDV fs fs := by
  induction fs with
  | nil => exact List.Forall₂.nil
  | cons f fs ih =>
    exact List.Forall₂.cons ⟨rfl, rfl, rfl, rfl, rfl, rfl, rfl, rfl⟩ ih

theorem getValues_congr (fs gs : List Field)
    (h : List.Forall₂ (fun a b => a.name = b.name ∧ a.value = b.value) fs gs) :
    ∀ acc : ValuesMap,
      fs.foldl (fun prev cur => objInsert cur.name cur.value prev) acc =
      gs.foldl (fun prev cur => objInsert cur.name cur.value prev) acc := by
  induction h with
  | nil => intro _; rfl
  | cons hab hrest ih =>
    intro acc
    simp only [List.foldl_cons]
    rw [hab.1, hab.2]
    exact ih _

theorem visibles_congr (V : ValuesMap) (fs gs : List Field)
    (h : List.Forall₂ (fun a b => a.conditionalRules = b.conditionalRules)
      fs gs) :
    fs.map (fun f => some (specVisible V f)) =
      gs.map (fun f => some (specVisible V f)) := by
  induction h with
  | nil => rfl
  | cons hab hrest ih =>
    rename_i a b l₁ l₂
    have h2 : specVisible V a = specVisible V b := by
      unfold specVisible
      rw [hab]
    simp [h2, ih]

theorem visibles_checkVisibility (form : Form) :
    (checkVisibility form).fields.map (fun f => f.visible) =
      form.fields.map (fun f => some (specVisible (getValues form) f)) := by
  rw [checkVisibility]
  simp only [List.map_map]
  rfl

theorem forall₂_updateFieldAttr_dv (n : String) (b : Bool) (fs : List Field) :
    List.Forall₂ eqExceptDV
      (updateFieldAttr n (fun f => { f with defaultVisibility := some b }) fs)
      fs := by
  induction fs with
  | nil => exact List.Forall₂.nil
  | cons f fs ih =>
    rw [updateFieldAttr_cons]
    by_cases h : f.name = n
    · rw [if_pos h]
      exact List.Forall₂.cons ⟨rfl, rfl, rfl, rfl, rfl, rfl, rfl, rfl⟩
        (forall₂_eqExceptDV_self fs)
    · rw [if_neg h]
      exact List.Forall₂.cons ⟨rfl, rfl, rfl, rfl, rfl, rfl, rfl, rfl⟩ ih

/-- C9: `checkVisibility` never reads `defaultVisibility`.  Two forms whose
fields agree on everything except their `defaultVisibility` attributes get
identical `visible` flags on every field; consequently running
`checkVisibility` after `setDefaultVisibility` yields the same `visible`
flags as running it without. -/
theorem c9_theorem :
    (∀ f g : Form, List.Forall₂ eqExceptDV f.fields g.fields →
      (checkVisibility f).fields.map (fun x => x.visible) =
        (checkVisibility g).fields.map (fun x => x.visible)) ∧
    (∀ (form : Form) (n : String) (b : Bool),
      (checkVisibility (setDefaultVisibility n b form)).fields.map
          (fun x => x.visible) =
        (checkVisibility form).fields.map (fun x => x.visible)) := by
  have main : ∀ f g : Form, List.Forall₂ eqExceptDV f.fields g.fields →
      (checkVisibility f).fields.map (fun x => x.visible) =
        (checkVisibility g).fields.map (fun x => x.visible) := by
    intro f g h
    rw [visibles_checkVisibility, visibles_checkVisibility]
    have hv : getValues f = getValues g :=
      getValues_congr f.fields g.fields
        (h.imp (fun _ _ hab => ⟨hab.2.1, hab.2.2.1⟩)) []
    rw [hv]
    exact visibles_congr (getValues g) f.fields g.fields
      (h.imp (fun _ _ hab => hab.2.2.2.2.2.1))
  constructor
  · exact main
  · intro form n b
    exact main _ _ (forall₂_updateFieldAttr_dv n b form.fields)

/-- C9, witness: the hyperproperty applied to a pair of one-field forms
that differ precisely in the `defaultVisibility` attribute. -/
theorem c9_witness :
    List.Forall₂ eqExceptDV dvForm1.fields dvForm2.fields ∧
    (checkVisibility dvForm1).fields.map (fun x => x.visible) =
      (checkVisibility dvForm2).fields.map (fun x => x.visible) := by
  have h : List.Forall₂ eqExceptDV dvForm1.fields dvForm2.fields :=
    List.Forall₂.cons ⟨rfl, rfl, rfl, rfl, rfl, rfl, rfl, rfl⟩
      List.Forall₂.nil
  exact ⟨h, c9_theorem.1 dvForm1 dvForm2 h⟩

end FormBuilder
